import Mathlib

/-!
Shallow embedding of the plugin manager `pack` (sources: src/package.rs,
src/cmd/update.rs, src/cmd/uninstall.rs).  Filesystem paths are modelled as
lists of path components (the component sequence a Rust `PathBuf` denotes);
YAML documents as an inductive `Yaml` mirroring the yaml-rust `Yaml` enum.
Parts of the repository referenced but not present under src/ (the `Error`
enum, the task engine, the loader-script generator, the `local` flag) are
modelled from the specification and marked as such.
-/

namespace Pack

/-- Modelled from the spec (§7): the error kinds of the crate-level `Error`
enum, which is referenced from src (`Error::Format`, `Error::PluginNotInstalled`,
`Error::SkipLocal`) but whose definition is not under src/.  `Vcs` stands for a
clone/update failure of the external VCS collaborator, `Fs` for a filesystem
error during deletions. -/
inductive Error
  | Format
  | PluginNotInstalled
  | SkipLocal
  | Vcs
  | Fs
deriving DecidableEq

/-- A filesystem path, as its sequence of components (what a Rust `PathBuf`
denotes; `PathBuf` equality compares component sequences). -/
abbrev Path := List String

/-- Split a character list at every `/`, keeping empty chunks. -/
def splitSlash : List Char → List (List Char)
  | [] => [[]]
  | c :: rest =>
    let r := splitSlash rest
    if c = '/' then [] :: r
    else
      match r with
      | [] => [[c]]
      | h :: t => (c :: h) :: t

/-- Rust `str::starts_with`. -/
def strStartsWith (s pre : String) : Bool :=
  pre.toList.isPrefixOf s.toList

/-- Normal components of a path fragment, as `Path::components()` yields them:
split on `/`, dropping empty chunks (repeated or trailing separators) and `.`
chunks.  Every fragment this program joins sits after the absolute base
directory or after a root, where `Path::components()` normalises every `.`
away (the leading-`CurDir` exception concerns only relative paths). -/
def components (s : String) : List String :=
  ((splitSlash s.toList).filter (fun c => c ≠ [] ∧ c ≠ ['.'])).map
    (fun cs => String.mk cs)

/-- Model of `PathBuf::join`: joining an absolute fragment (one starting with
`/`) replaces the whole path — the root is the distinguished first component
`"/"` — while a relative fragment appends its normal components. -/
def pjoin (p : Path) (s : String) : Path :=
  if strStartsWith s "/" then "/" :: components s else p ++ components s

/-- Model of the lazily-resolved `BASE_DIR` (`$VIM_CONFIG_PATH` or `~/.vim`):
an opaque absolute directory, kept distinct from the root marker `"/"` so that
an absolute joined fragment never aliases back into the base tree (the
canonical-path idealization); its concrete value is irrelevant to every
claim. -/
def BASE_DIR : Path := [".vim"]

/-- Path `BASE_DIR/pack` (src/package.rs, lazy static `PACK_DIR`). -/
def PACK_DIR : Path := pjoin BASE_DIR "pack"

/-- Path `BASE_DIR/.pack` (src/package.rs, lazy static `PACK_CONFIG_DIR`). -/
def PACK_CONFIG_DIR : Path := pjoin BASE_DIR ".pack"

/-- The `Package` struct of src/package.rs: name, category, opt flag and the
optional deferred-load command. -/
structure Package where
  name : String
  category : String
  opt : Bool
  load_command : Option String
deriving DecidableEq

namespace Package

/-- Split a character list at the first `/`: `none` when there is none,
otherwise the part before and the (uncut) part after it. -/
def splitFirstSlash : List Char → Option (List Char × List Char)
  | [] => none
  | c :: rest =>
    if c = '/' then some ([], rest)
    else (splitFirstSlash rest).map (fun q => (c :: q.1, q.2))

/-- Method `Package::repo` (src/package.rs lines 109-114): `name.splitn(2, "/")`,
yielding the part before the first `/` and the remainder (empty when there is
no `/`). -/
def repo (p : Package) : String × String :=
  match splitFirstSlash p.name.toList with
  | none => (p.name, "")
  | some (u, r) => (String.mk u, String.mk r)

/-- Method `Package::path` (src/package.rs lines 90-97): `PACK_DIR/category/opt/repo`
or `PACK_DIR/category/start/repo` depending on the opt flag. -/
def path (p : Package) : Path :=
  let r := p.repo.2
  if p.opt then
    pjoin (pjoin (pjoin PACK_DIR p.category) "opt") r
  else
    pjoin (pjoin (pjoin PACK_DIR p.category) "start") r

end Package

/-- Rust `str::replace("/", "-")`: the pattern being a single character, this
is a character-wise substitution. -/
def slashToDash (s : String) : String :=
  String.mk (s.toList.map (fun c => if c = '/' then '-' else c))

/-- Rust `str::ends_with`. -/
def strEndsWith (s suf : String) : Bool :=
  suf.toList.reverse.isPrefixOf s.toList.reverse

/-- Method `Package::config_path` (src/package.rs lines 99-107): replace `/` by `-`
in the name, append `.vim` unless already present, under `PACK_CONFIG_DIR`. -/
def Package.config_path (p : Package) : Path :=
  let n := slashToDash p.name
  let fname := if strEndsWith n ".vim" then n else n ++ ".vim"
  pjoin PACK_CONFIG_DIR fname

/-- The yaml-rust `Yaml` enum, restricted to the variants this program can
produce or inspect (`Real`/`Alias` never occur here). `badValue` is the
`BAD_VALUE` returned by indexing on a missing key or a non-hash. -/
inductive Yaml
  | null
  | bool (b : Bool)
  | int (n : Int)
  | str (s : String)
  | arr (xs : List Yaml)
  | hash (kvs : List (Yaml × Yaml))
  | badValue

/-- Equality test used for hash-key lookup.  The program only ever looks up
scalar string keys, for which this agrees exactly with yaml-rust's derived
`Eq`; two composite keys are never compared. -/
def yamlKeyEq : Yaml → Yaml → Bool
  | .null, .null => true
  | .bool a, .bool b => a == b
  | .int a, .int b => a == b
  | .str a, .str b => a == b
  | .badValue, .badValue => true
  | _, _ => false

/-- Model of `LinkedHashMap::insert`: replace the value in place if the key is present,
otherwise append the pair at the end. -/
def hashInsert : List (Yaml × Yaml) → Yaml → Yaml → List (Yaml × Yaml)
  | [], k, v => [(k, v)]
  | (k', v') :: rest, k, v =>
    if yamlKeyEq k' k then (k', v) :: rest else (k', v') :: hashInsert rest k v

/-- Model of `LinkedHashMap::get`. -/
def hashGet : List (Yaml × Yaml) → Yaml → Option Yaml
  | [], _ => none
  | (k', v) :: rest, k => if yamlKeyEq k' k then some v else hashGet rest k

namespace Yaml

/-- The `Index<&str>` impl for `Yaml`: look up `Yaml::String(key)` in a hash,
`BAD_VALUE` on a missing key or a non-hash receiver. -/
def index (d : Yaml) (key : String) : Yaml :=
  match d with
  | .hash kvs => (hashGet kvs (.str key)).getD .badValue
  | _ => .badValue

/-- Accessor `Yaml::as_str`. -/
def as_str : Yaml → Option String
  | .str s => some s
  | _ => none

/-- Accessor `Yaml::as_bool`. -/
def as_bool : Yaml → Option Bool
  | .bool b => some b
  | _ => none

/-- Accessor `Yaml::as_vec`. -/
def as_vec : Yaml → Option (List Yaml)
  | .arr xs => some xs
  | _ => none

end Yaml

/-- Digits of `cs` in base `base`, `none` on an empty or invalid digit
sequence (as the Rust integer parsers reject them). -/
def digitsToNat? (base : Nat) (cs : List Char) : Option Nat :=
  match cs with
  | [] => none
  | _ =>
    cs.foldl (fun acc c =>
      match acc with
      | none => none
      | some n =>
        let d :=
          if c.isDigit then some (c.toNat - '0'.toNat)
          else if 'a' ≤ c ∧ c ≤ 'f' then some (c.toNat - 'a'.toNat + 10)
          else if 'A' ≤ c ∧ c ≤ 'F' then some (c.toNat - 'A'.toNat + 10)
          else none
        match d with
        | some d => if d < base then some (n * base + d) else none
        | none => none) (some 0)

/-- Signed digit-sequence parse bounded to the `i64` range, modelling
`str::parse::<i64>` (base 10) and `i64::from_str_radix` (other bases): an
optional sign, a non-empty run of digits of the base, and an overflow
check. -/
def radixToInt? (base : Nat) (cs : List Char) : Option Int :=
  let signed : Option Int :=
    match cs with
    | '+' :: rest => (digitsToNat? base rest).map Int.ofNat
    | '-' :: rest => (digitsToNat? base rest).map (fun n => -(Int.ofNat n))
    | _ => (digitsToNat? base cs).map Int.ofNat
  match signed with
  | some n => if -(2 ^ 63 : Int) ≤ n ∧ n < 2 ^ 63 then some n else none
  | none => none

/-- Trailing scalar classification of `Yaml::from_str`: null/boolean/integer
literals, everything else a plain string. -/
def fromStrCore (v : String) : Yaml :=
  if v = "~" ∨ v = "null" then .null
  else if v = "true" then .bool true
  else if v = "false" then .bool false
  else
    match radixToInt? 10 v.toList with
    | some n => .int n
    | none => .str v

/-- The yaml-rust `Yaml::from_str` scalar parser: hexadecimal, octal and
explicitly-signed integer prefixes first, then the core classification. -/
def Yaml.from_str (v : String) : Yaml :=
  if strStartsWith v "0x" then
    match radixToInt? 16 (v.toList.drop 2) with
    | some n => .int n
    | none => fromStrCore v
  else if strStartsWith v "0o" then
    match radixToInt? 8 (v.toList.drop 2) with
    | some n => .int n
    | none => fromStrCore v
  else if strStartsWith v "+" then
    match radixToInt? 10 (v.toList.drop 1) with
    | some n => .int n
    | none => fromStrCore v
  else fromStrCore v

/-- Method `Package::from_yaml` (src/package.rs lines 65-77): require string `name`,
boolean `opt`, string `category`; the optional `on` becomes `load_command`. -/
def Package.from_yaml (doc : Yaml) : Except Error Package :=
  match (doc.index "name").as_str with
  | none => .error .Format
  | some name =>
    match (doc.index "opt").as_bool with
    | none => .error .Format
    | some opt =>
      match (doc.index "category").as_str with
      | none => .error .Format
      | some category =>
        let cmd := (doc.index "on").as_str
        .ok { name := name, category := category, opt := opt, load_command := cmd }

/-- Method `Package::into_yaml` (src/package.rs lines 79-88): a hash with `name`,
`category`, `opt` and, when present, `on`, every scalar re-read through
`Yaml::from_str`. -/
def Package.into_yaml (p : Package) : Yaml :=
  let doc := hashInsert [] (Yaml.from_str "name") (Yaml.from_str p.name)
  let doc := hashInsert doc (Yaml.from_str "category") (Yaml.from_str p.category)
  let doc := hashInsert doc (Yaml.from_str "opt") (Yaml.bool p.opt)
  let doc :=
    match p.load_command with
    | some c => hashInsert doc (Yaml.from_str "on") (Yaml.from_str c)
    | none => doc
  Yaml.hash doc

/-- State of the declarative store file, at the parsed level: absent, or
present with the YAML documents its text parses to (syntactically unparseable
files, on which `YamlLoader` panics before any record is inspected, are not
needed by any claim). -/
inductive StoreState
  | absent
  | present (docs : List Yaml)

/-- Outcome of `fetch`: either a process abort coming from an `expect` (a Rust
panic with its message), or the returned `Option<Vec<Package>>`. -/
inductive FetchResult
  | fatal (msg : String)
  | ok (r : Option (List Package))
deriving DecidableEq

/-- The record-decoding loop inside `fetch`
(`doc.iter().map(|d| Package::from_yaml(d).expect("Invalid format")).collect()`):
the first record that fails to decode panics with "Invalid format". -/
def loadPackages : List Yaml → Except String (List Package)
  | [] => .ok []
  | d :: rest =>
    match Package.from_yaml d with
    | .error _ => .error "Invalid format"
    | .ok p =>
      match loadPackages rest with
      | .error m => .error m
      | .ok ps => .ok (p :: ps)

/-- Function `fetch` (src/package.rs lines 133-154): `None` when the store file is
absent, when the parsed document list is empty, or when the first document is
not an array; otherwise decode every record, panicking on the first malformed
one. -/
def fetch : StoreState → FetchResult
  | .absent => .ok none
  | .present docs =>
    match docs with
    | [] => .ok none
    | d :: _ =>
      match d.as_vec with
      | none => .ok none
      | some items =>
        match loadPackages items with
        | .error m => .fatal m
        | .ok ps => .ok (some ps)

/-- Model of `packs.sort_by(|a, b| a.name.cmp(&b.name))`: stable sort by name. -/
def sortByName (l : List Package) : List Package :=
  l.mergeSort (fun a b => a.name ≤ b.name)

/-- Modelled from the spec (§4.1): the Task Engine's `run` (src/task.rs is not
under src/).  Every enqueued item's operation executes exactly once and the
names of the items whose operation failed form the returned failure set;
bounded parallelism affects timing only, never the result set. -/
def TaskManager.run (batch : List Package) (op : Package → Except Error Unit) :
    List String :=
  (batch.filter (fun p =>
    match op p with
    | .ok _ => false
    | .error _ => true)).map (fun p => p.name)

/-- Observable world state a command touches: the persisted declarative store,
the generated loader script (identified with the package set it was generated
from, the generator being an opaque deterministic function of that set), and
the filesystem's existing directories and regular files. -/
structure World where
  store : StoreState
  loader : Option (List Package)
  dirs : List Path
  files : List Path

/-- Modelled from the spec (§4.2 `regenerateLoaderScript`): the loader-script
generator `package::update_pack_plugin` (not under src/), a deterministic
function of the given package set, independent from store persistence. -/
def update_pack_plugin (w : World) (packs : List Package) : World :=
  { w with loader := some packs }

/-- Function `save` (src/package.rs lines 156-172): sort by name, serialize each record
with `into_yaml`, write header plus document to the store file (serialization
and file I/O are modelled as always succeeding; no claim concerns their
failure). -/
def save (w : World) (packs : List Package) : World :=
  { w with store := .present [Yaml.arr ((sortByName packs).map Package.into_yaml)] }

/-- Contiguous-sublist test over character lists. -/
def charsInfix (needle : List Char) : List Char → Bool
  | [] => needle.isEmpty
  | c :: t => needle.isPrefixOf (c :: t) || charsInfix needle t

/-- Rust `str::contains`: substring test. -/
def strContains (s pat : String) : Bool :=
  charsInfix pat.toList s.toList

/-- Check `path.is_dir()` against the modelled filesystem. -/
def isDirIn (w : World) (p : Path) : Bool := w.dirs.contains p

/-- Check `path.is_file()` against the modelled filesystem. -/
def isFileIn (w : World) (p : Path) : Bool := w.files.contains p

/-- Model of `fs::remove_file`. -/
def removeFile (w : World) (p : Path) : World :=
  { w with files := w.files.filter (fun f => f != p) }

/-- Model of `fs::remove_dir_all`: removes the directory together with everything below
it. -/
def removeDirAll (w : World) (p : Path) : World :=
  { w with
    dirs := w.dirs.filter (fun d => !(p.isPrefixOf d)),
    files := w.files.filter (fun f => !(p.isPrefixOf f)) }

/-- Function `update_plugin` (src/cmd/update.rs lines 102-111).  The filesystem is the
checked `dirs`; `git` is the external `git::update` collaborator; `localOf`
models the package's locally-managed flag (`pack.local`, referenced here but
absent from the `Package` struct in src/package.rs — modelled from the spec's
"locally-managed ⇒ SkipLocal failure"). -/
def update_plugin (w : World) (git : String → Path → Except Error Unit)
    (localOf : Package → Bool) (pack : Package) : Except Error Unit :=
  let path := pack.path
  if !(isDirIn w path) then .error .PluginNotInstalled
  else if localOf pack then .error .SkipLocal
  else git pack.name path

/-- The batch-building loop of `update_plugins` for the no-explicit-names case
(src/cmd/update.rs lines 78-84): packages whose name contains a skip substring
are logged as skipped ("Skip {name}") and not enqueued; the rest are enqueued
in registry order. -/
def buildBatch (skip : List String) : List Package → List Package × List String
  | [] => ([], [])
  | p :: rest =>
    let (b, lg) := buildBatch skip rest
    if skip.any (fun x => strContains p.name x) then (b, p.name :: lg)
    else (p :: b, lg)

/-- Everything observable about one `update_plugins` invocation. -/
structure UpdateResult where
  world : World
  batch : List Package
  skipped : List String
  failures : List String
  final : List Package

/-- Function `update_plugins` (src/cmd/update.rs lines 73-100), with the fetched
registry `packs` passed in by the caller (the `package::fetch()?` line): build
the batch (explicit name filter, or skip-substring filter with a notice per
skipped package), run the engine, retain only non-failed names, sort, and
regenerate the loader script.  No call to `save` occurs. -/
def update_plugins (w : World) (packs : List Package) (plugins : List String)
    (skip : List String) (git : String → Path → Except Error Unit)
    (localOf : Package → Bool) : UpdateResult :=
  let bs :=
    if plugins.isEmpty then buildBatch skip packs
    else (packs.filter (fun x => plugins.contains x.name), ([] : List String))
  let fails := TaskManager.run bs.1 (update_plugin w git localOf)
  let remaining := fails.foldl (fun ps fail => ps.filter (fun e => e.name != fail)) packs
  let final := sortByName remaining
  { world := update_pack_plugin w final
    batch := bs.1
    skipped := bs.2
    failures := fails
    final := final }

/-- Function `uninstall_plugin` (src/cmd/uninstall.rs lines 51-64): remove the config
file when it exists and the "also remove config" flag is set, then remove the
install directory when it exists.  `rmOk` models whether a given filesystem
deletion succeeds; a failed deletion leaves the filesystem unchanged and
aborts with a filesystem error. -/
def uninstall_plugin (rmOk : Path → Bool) (w : World) (plugin : Package)
    (all : Bool) : World × Option Error :=
  let config := plugin.config_path
  let ppath := plugin.path
  let step1 : World × Option Error :=
    if isFileIn w config && all then
      if rmOk config then (removeFile w config, none) else (w, some .Fs)
    else (w, none)
  match step1 with
  | (w1, some e) => (w1, some e)
  | (w1, none) =>
    if isDirIn w1 ppath then
      if rmOk ppath then (removeDirAll w1 ppath, none) else (w1, some .Fs)
    else (w1, none)

/-- The per-package loop of `uninstall_plugins` with `?` propagation: the
first failing deletion aborts the loop, leaving the remaining packages
unprocessed. -/
def uninstallLoop (rmOk : Path → Bool) (all : Bool) :
    World → List Package → World × Option Error
  | w, [] => (w, none)
  | w, p :: rest =>
    match uninstall_plugin rmOk w p all with
    | (w', some e) => (w', some e)
    | (w', none) => uninstallLoop rmOk all w' rest

/-- Function `uninstall_plugins` (src/cmd/uninstall.rs lines 37-49), with the fetched
registry `packs` passed in by the caller: delete each requested package's
files, then retain the others, sort, regenerate the loader script and persist
the trimmed registry. -/
def uninstall_plugins (rmOk : Path → Bool) (w : World) (packs : List Package)
    (plugins : List String) (all : Bool) : World × Option Error :=
  match uninstallLoop rmOk all w (packs.filter (fun p => plugins.contains p.name)) with
  | (w1, some e) => (w1, some e)
  | (w1, none) =>
    let remaining := packs.filter (fun x => !(plugins.contains x.name))
    let final := sortByName remaining
    let w2 := update_pack_plugin w1 final
    (save w2 final, none)

/-! ## Helper lemmas -/

theorem filter_foldl_retain (fails : List String) (packs : List Package) :
    fails.foldl (fun ps fail => ps.filter (fun e => e.name != fail)) packs
      = packs.filter (fun p => !(fails.contains p.name)) := by
  induction fails generalizing packs with
  | nil => simp
  | cons f fs ih =>
    simp only [List.foldl_cons, ih, List.filter_filter]
    congr 1
    funext p
    by_cases h1 : p.name = f <;> by_cases h2 : p.name ∈ fs <;>
      simp [h1, h2, List.contains_cons, Bool.not_or, bne]

theorem buildBatch_spec (skip : List String) (packs : List Package) :
    buildBatch skip packs
      = (packs.filter (fun p => !(skip.any (fun x => strContains p.name x))),
         (packs.filter (fun p => skip.any (fun x => strContains p.name x))).map
           (fun p => p.name)) := by
  induction packs with
  | nil => rfl
  | cons p rest ih =>
    simp only [buildBatch, ih]
    cases h : skip.any (fun x => strContains p.name x) <;>
      simp [h, List.filter_cons]

theorem pack_prefix_ne (l1 l2 : List String) :
    List.isPrefixOf (".vim" :: "pack" :: l1) (".vim" :: ".pack" :: l2) = false := by
  have h : (("pack" : String) == ".pack") = false := rfl
  simp [List.isPrefixOf, h]

theorem root_prefix_ne (l1 l2 : List String) :
    List.isPrefixOf ("/" :: l1) (".vim" :: l2) = false := by
  have h : (("/" : String) == ".vim") = false := rfl
  simp [List.isPrefixOf, h]

theorem path_shape (p : Package) :
    (∃ rest, p.path = ".vim" :: "pack" :: rest)
      ∨ (∃ rest, p.path = "/" :: rest) := by
  have hs1 : strStartsWith "opt" "/" = false := rfl
  have hs2 : strStartsWith "start" "/" = false := rfl
  cases ho : p.opt <;>
    simp only [Package.path, ho, Bool.false_eq_true, if_false, if_true,
      ite_true, ite_false] <;>
    cases hr : strStartsWith p.repo.2 "/" <;>
    cases hc : strStartsWith p.category "/" <;>
    simp only [pjoin, hr, hc, hs1, hs2, Bool.false_eq_true, if_false, if_true,
      ite_true, ite_false] <;>
    first
      | exact Or.inr ⟨_, rfl⟩
      | exact Or.inl ⟨_, rfl⟩

theorem mem_slashToDash (s : String) (c : Char)
    (hc : c ∈ (slashToDash s).toList) : c ≠ '/' := by
  have hc' : c ∈ s.toList.map (fun a => if a = '/' then '-' else a) := hc
  obtain ⟨a, _, ha⟩ := List.mem_map.1 hc'
  intro h
  subst h
  by_cases h2 : a = '/'
  · rw [if_pos h2] at ha
    cases ha
  · rw [if_neg h2] at ha
    exact h2 ha

theorem no_slash_append_vim (s : String) (c : Char)
    (hc : c ∈ (slashToDash s ++ ".vim").toList) : c ≠ '/' := by
  have hc' : c ∈ (slashToDash s).toList ++ ['.', 'v', 'i', 'm'] := hc
  rcases List.mem_append.1 hc' with h | h
  · exact mem_slashToDash s c h
  · intro he
    subst he
    simp at h

theorem not_startsWith_slash (s : String) (h : ∀ c ∈ s.toList, c ≠ '/') :
    strStartsWith s "/" = false := by
  show List.isPrefixOf ['/'] s.toList = false
  cases hs : s.toList with
  | nil => rfl
  | cons c t =>
    have hcne : ('/' == c) = false := by
      have := h c (by rw [hs]; exact List.mem_cons_self c t)
      simp [Ne.symm this]
    simp [List.isPrefixOf, hcne]

theorem config_fname_rel (p : Package) :
    strStartsWith (if strEndsWith (slashToDash p.name) ".vim"
      then slashToDash p.name else slashToDash p.name ++ ".vim") "/" = false := by
  cases h : strEndsWith (slashToDash p.name) ".vim" <;>
    simp only [h, Bool.false_eq_true, if_false, if_true, ite_true, ite_false]
  · exact not_startsWith_slash _ (no_slash_append_vim p.name)
  · exact not_startsWith_slash _ (mem_slashToDash p.name)

theorem config_path_shape (p : Package) :
    ∃ rest, p.config_path = ".vim" :: ".pack" :: rest := by
  have hrel := config_fname_rel p
  simp only [Package.config_path, pjoin, hrel, Bool.false_eq_true, if_false,
    ite_false]
  exact ⟨_, rfl⟩

theorem path_not_prefix_config (p : Package) :
    List.isPrefixOf p.path p.config_path = false := by
  obtain ⟨r2, h2⟩ := config_path_shape p
  rcases path_shape p with ⟨r1, h1⟩ | ⟨r1, h1⟩
  · rw [h1, h2, pack_prefix_ne]
  · rw [h1, h2, root_prefix_ne]

theorem uninstall_plugin_preserves (rmOk : Path → Bool) (w : World) (p : Package)
    (all : Bool) :
    (uninstall_plugin rmOk w p all).1.store = w.store
      ∧ (uninstall_plugin rmOk w p all).1.loader = w.loader := by
  simp only [uninstall_plugin]
  split
  next w1 e heq =>
    split at heq
    · split at heq
      · simp at heq
      · cases heq; exact ⟨rfl, rfl⟩
    · simp at heq
  next w1 heq =>
    have hw1 : w1.store = w.store ∧ w1.loader = w.loader := by
      split at heq
      · split at heq
        · cases heq; exact ⟨rfl, rfl⟩
        · simp at heq
      · cases heq; exact ⟨rfl, rfl⟩
    split
    · split
      · exact hw1
      · exact hw1
    · exact hw1

theorem uninstallLoop_preserves (rmOk : Path → Bool) (all : Bool) (w : World)
    (l : List Package) :
    (uninstallLoop rmOk all w l).1.store = w.store
      ∧ (uninstallLoop rmOk all w l).1.loader = w.loader := by
  induction l generalizing w with
  | nil => exact ⟨rfl, rfl⟩
  | cons p rest ih =>
    simp only [uninstallLoop]
    cases h : uninstall_plugin rmOk w p all with
    | mk w' e =>
      have hp := uninstall_plugin_preserves rmOk w p all
      rw [h] at hp
      cases e with
      | none =>
        simp only
        exact ⟨(ih w').1.trans hp.1, (ih w').2.trans hp.2⟩
      | some err => exact ⟨hp.1, hp.2⟩

theorem loadPackages_mem_error (items : List Yaml) (d : Yaml) (hd : d ∈ items)
    (herr : ∃ e, Package.from_yaml d = .error e) :
    loadPackages items = .error "Invalid format" := by
  induction items with
  | nil => cases hd
  | cons h t ih =>
    simp only [loadPackages]
    cases hh : Package.from_yaml h with
    | error e => rfl
    | ok p =>
      cases hd with
      | head =>
        obtain ⟨e, he⟩ := herr
        rw [hh] at he
        cases he
      | tail _ hmem => rw [ih hmem]

/-! ## Claim theorems -/

/-- C1: for every registry, batch selection, skip list and outcome of the
per-item operations (the `git` and `localOf` oracles are universally
quantified), `update_plugins` leaves the persisted declarative store exactly
as it was: it regenerates the loader script but never calls `save`. -/
theorem update_never_persists_store (w : World) (packs : List Package)
    (plugins skip : List String) (git : String → Path → Except Error Unit)
    (localOf : Package → Bool) :
    (update_plugins w packs plugins skip git localOf).world.store = w.store := rfl

/-- C2: after the engine's run, `update_plugins` removes from the in-memory
package list exactly the packages whose name is in the returned failure set,
and the list handed to the loader-script generator is the loaded registry
minus the failed names, sorted by name. -/
theorem update_final_is_registry_minus_failures (w : World) (packs : List Package)
    (plugins skip : List String) (git : String → Path → Except Error Unit)
    (localOf : Package → Bool) :
    (update_plugins w packs plugins skip git localOf).final
        = sortByName (packs.filter (fun p =>
            !((update_plugins w packs plugins skip git localOf).failures.contains
              p.name)))
      ∧ (update_plugins w packs plugins skip git localOf).world.loader
        = some (update_plugins w packs plugins skip git localOf).final := by
  constructor
  · show sortByName (List.foldl _ packs _) = _
    rw [filter_foldl_retain]
    rfl
  · rfl

/-- C3 counterexample: two Packages with distinct names whose install paths
coincide — `path()` only uses the repo suffix of the name (plus category and
opt), so `"a/x"` and `"b/x"` in the same category collide. -/
theorem path_collision_distinct_names :
    (⟨"a/x", "c", false, none⟩ : Package).name
        ≠ (⟨"b/x", "c", false, none⟩ : Package).name
      ∧ (⟨"a/x", "c", false, none⟩ : Package).path
        = (⟨"b/x", "c", false, none⟩ : Package).path :=
  ⟨by decide, rfl⟩

/-- C3 amended: install paths are distinct for two Packages that share
category and opt flag and whose (relative, i.e. not `/`-leading) repo suffixes
differ as normalized path-component sequences; distinct names alone do not
make the paths distinct, and an absolute repo suffix replaces the whole path
under `join`. -/
theorem path_injective_same_category_opt (p q : Package)
    (hc : p.category = q.category) (ho : p.opt = q.opt)
    (hp : strStartsWith p.repo.2 "/" = false)
    (hq : strStartsWith q.repo.2 "/" = false)
    (hr : components p.repo.2 ≠ components q.repo.2) : p.path ≠ q.path := by
  intro h
  apply hr
  simp only [Package.path, hc, ho] at h
  cases hqo : q.opt <;> rw [hqo] at h <;>
    simp only [Bool.false_eq_true, if_false, if_true, pjoin, hp, hq, ite_false] at h <;>
    exact List.append_cancel_left h

/-- C3 amended, witness: `"a/x"` and `"a/y"` share category and opt, both repo
suffixes are relative, and their normalized components differ, so their paths
differ. -/
theorem path_injective_same_category_opt_witness :
    strStartsWith (⟨"a/x", "c", false, none⟩ : Package).repo.2 "/" = false
      ∧ components (⟨"a/x", "c", false, none⟩ : Package).repo.2
        ≠ components (⟨"a/y", "c", false, none⟩ : Package).repo.2
      ∧ (⟨"a/x", "c", false, none⟩ : Package).path
        ≠ (⟨"a/y", "c", false, none⟩ : Package).path :=
  ⟨rfl, by decide,
   path_injective_same_category_opt _ _ rfl rfl rfl rfl (by decide)⟩

/-- C5: a persisted record whose `name`, `opt` or `category` field is missing
or has the wrong type decodes to the `Format` error, and a store whose first
document is an array containing such a record makes `fetch` abort the whole
command (the `expect("Invalid format")` panic); a record with the three
required fields present and no usable `on` field decodes successfully with
`load_command = none`. -/
theorem from_yaml_required_fields (doc : Yaml) :
    ((doc.index "name").as_str = none → Package.from_yaml doc = .error .Format)
  ∧ ((doc.index "opt").as_bool = none → Package.from_yaml doc = .error .Format)
  ∧ ((doc.index "category").as_str = none → Package.from_yaml doc = .error .Format)
  ∧ (∀ n b c, (doc.index "name").as_str = some n →
      (doc.index "opt").as_bool = some b →
      (doc.index "category").as_str = some c →
      (doc.index "on").as_str = none →
      Package.from_yaml doc = .ok ⟨n, c, b, none⟩)
  ∧ (∀ items rest, doc ∈ items → Package.from_yaml doc = .error .Format →
      fetch (.present (Yaml.arr items :: rest)) = .fatal "Invalid format") := by
  refine ⟨?_, ?_, ?_, ?_, ?_⟩
  · intro h
    simp only [Package.from_yaml, h]
  · intro h
    simp only [Package.from_yaml, h]
    cases (doc.index "name").as_str <;> rfl
  · intro h
    simp only [Package.from_yaml, h]
    cases (doc.index "name").as_str <;> [rfl; skip]
    cases (doc.index "opt").as_bool <;> rfl
  · intro n b c hn hb hc hon
    simp only [Package.from_yaml, hn, hb, hc, hon]
  · intro items rest hmem herr
    have hload := loadPackages_mem_error items doc hmem ⟨.Format, herr⟩
    simp only [fetch, Yaml.as_vec, hload]

/-- C5 witness: concrete records exercising every conjunct — a record missing
`name`, one missing `opt`, one missing `category`, a well-formed record
without `on`, and a store whose array contains the malformed record, on which
`fetch` aborts. -/
theorem from_yaml_required_fields_witness :
    Package.from_yaml (.hash [(.str "opt", .bool true)]) = .error .Format
  ∧ Package.from_yaml (.hash [(.str "name", .str "u/r")]) = .error .Format
  ∧ Package.from_yaml (.hash [(.str "name", .str "u/r"), (.str "opt", .bool true)])
      = .error .Format
  ∧ Package.from_yaml (.hash [(.str "name", .str "u/r"), (.str "opt", .bool false),
      (.str "category", .str "c")]) = .ok ⟨"u/r", "c", false, none⟩
  ∧ fetch (.present [Yaml.arr [Yaml.hash [(.str "name", .str "u/r"),
        (.str "opt", .bool false), (.str "category", .str "c")],
      Yaml.hash [(.str "opt", .bool true)]]])
      = .fatal "Invalid format" :=
  ⟨(from_yaml_required_fields _).1 rfl,
   (from_yaml_required_fields _).2.1 rfl,
   (from_yaml_required_fields _).2.2.1 rfl,
   (from_yaml_required_fields _).2.2.2.1 "u/r" false "c" rfl rfl rfl rfl,
   (from_yaml_required_fields _).2.2.2.2 _ [] (.tail _ (.head _)) rfl⟩

/-- C6: the update per-item operation returns `PluginNotInstalled` when the
package's install path is not an existing directory, `SkipLocal` when it is
installed but locally managed, and otherwise exactly the result of the VCS
update call for the package's name and path. -/
theorem update_plugin_decision_chain (w : World)
    (git : String → Path → Except Error Unit) (localOf : Package → Bool)
    (pack : Package) :
    (isDirIn w pack.path = false →
      update_plugin w git localOf pack = .error .PluginNotInstalled)
  ∧ (isDirIn w pack.path = true → localOf pack = true →
      update_plugin w git localOf pack = .error .SkipLocal)
  ∧ (isDirIn w pack.path = true → localOf pack = false →
      update_plugin w git localOf pack = git pack.name pack.path) := by
  refine ⟨?_, ?_, ?_⟩
  · intro h
    simp [update_plugin, h]
  · intro h hl
    simp [update_plugin, h, hl]
  · intro h hl
    simp [update_plugin, h, hl]

/-- C6 witness: a package with no install directory fails as not installed; an
installed locally-managed one fails as skip-local; an installed non-local one
returns the VCS result (here a VCS failure). -/
theorem update_plugin_decision_chain_witness :
    update_plugin ⟨.absent, none, [], []⟩ (fun _ _ => .ok ()) (fun _ => false)
        ⟨"A/p", "c", false, none⟩ = .error .PluginNotInstalled
  ∧ update_plugin ⟨.absent, none, [[".vim", "pack", "c", "start", "q"]], []⟩
        (fun _ _ => .ok ()) (fun _ => true) ⟨"B/q", "c", false, none⟩
      = .error .SkipLocal
  ∧ update_plugin ⟨.absent, none, [[".vim", "pack", "c", "start", "q"]], []⟩
        (fun _ _ => .error .Vcs) (fun _ => false) ⟨"B/q", "c", false, none⟩
      = .error .Vcs :=
  ⟨(update_plugin_decision_chain _ _ _ _).1 rfl,
   (update_plugin_decision_chain _ _ _ _).2.1 rfl rfl,
   (update_plugin_decision_chain _ _ _ _).2.2 rfl rfl⟩

/-- C7: with no explicit plugin names, the batch submitted to the engine is
exactly the registry packages whose name contains none of the skip-list
substrings, and the skipped-notice log names exactly the excluded packages;
with explicit names, the batch is exactly the registry packages whose name is
among them, no skip notice is emitted, and the skip list is not applied. -/
theorem update_batch_selection (w : World) (packs : List Package)
    (plugins skip : List String) (git : String → Path → Except Error Unit)
    (localOf : Package → Bool) :
    (plugins = [] →
      (update_plugins w packs plugins skip git localOf).batch
          = packs.filter (fun p => !(skip.any (fun x => strContains p.name x)))
        ∧ (update_plugins w packs plugins skip git localOf).skipped
          = (packs.filter (fun p => skip.any (fun x => strContains p.name x))).map
              (fun p => p.name))
  ∧ (plugins ≠ [] →
      (update_plugins w packs plugins skip git localOf).batch
          = packs.filter (fun x => plugins.contains x.name)
        ∧ (update_plugins w packs plugins skip git localOf).skipped = []) := by
  constructor
  · intro h
    subst h
    constructor
    · show (buildBatch skip packs).1 = _
      rw [buildBatch_spec]
    · show (buildBatch skip packs).2 = _
      rw [buildBatch_spec]
  · intro h
    have he : plugins.isEmpty = false := by
      cases plugins with
      | nil => exact absurd rfl h
      | cons a l => rfl
    constructor
    · show (if plugins.isEmpty = true then _ else _ : List Package × List String).1 = _
      rw [he]
      simp
    · show (if plugins.isEmpty = true then _ else _ : List Package × List String).2 = _
      rw [he]
      simp

/-- C7 witness: the spec's skip-filtering example — registry `a/x`, `b/y` with
skip list `x` batches only `b/y` and logs `a/x`; explicitly updating `b/y`
with the same skip list batches exactly `b/y` with no skip notice. -/
theorem update_batch_selection_witness :
    (update_plugins ⟨.absent, none, [], []⟩
        [⟨"a/x", "c", false, none⟩, ⟨"b/y", "c", false, none⟩] [] ["x"]
        (fun _ _ => .ok ()) (fun _ => false)).batch
        = [⟨"b/y", "c", false, none⟩]
    ∧ (update_plugins ⟨.absent, none, [], []⟩
        [⟨"a/x", "c", false, none⟩, ⟨"b/y", "c", false, none⟩] [] ["x"]
        (fun _ _ => .ok ()) (fun _ => false)).skipped = ["a/x"]
    ∧ (update_plugins ⟨.absent, none, [], []⟩
        [⟨"a/x", "c", false, none⟩, ⟨"b/y", "c", false, none⟩] ["b/y"] ["x"]
        (fun _ _ => .ok ()) (fun _ => false)).batch
        = [⟨"b/y", "c", false, none⟩] := by
  refine ⟨?_, ?_, ?_⟩
  · rw [((update_batch_selection ⟨.absent, none, [], []⟩
      [⟨"a/x", "c", false, none⟩, ⟨"b/y", "c", false, none⟩] [] ["x"]
      (fun _ _ => .ok ()) (fun _ => false)).1 rfl).1]
    rfl
  · rw [((update_batch_selection ⟨.absent, none, [], []⟩
      [⟨"a/x", "c", false, none⟩, ⟨"b/y", "c", false, none⟩] [] ["x"]
      (fun _ _ => .ok ()) (fun _ => false)).1 rfl).2]
    rfl
  · rw [((update_batch_selection ⟨.absent, none, [], []⟩
      [⟨"a/x", "c", false, none⟩, ⟨"b/y", "c", false, none⟩] ["b/y"] ["x"]
      (fun _ _ => .ok ()) (fun _ => false)).2 (by simp)).1]
    rfl

/-! ## Containment helpers for the uninstall claims -/

theorem isPrefixOf_self (l : List String) : l.isPrefixOf l = true := by
  induction l with
  | nil => rfl
  | cons a t ih => simp [List.isPrefixOf, ih]

theorem contains_filter_qfalse (q : Path → Bool) (x : Path) (hq : q x = false) :
    ∀ l : List Path, (l.filter q).contains x = false := by
  intro l
  simp
  exact fun _ => hq

theorem contains_false_filter (q : Path → Bool) (x : Path) (l : List Path)
    (h : l.contains x = false) : (l.filter q).contains x = false := by
  simp at h ⊢
  exact fun hx => absurd hx h

theorem contains_filter_qtrue (q : Path → Bool) (x : Path) (hq : q x = true) :
    ∀ l : List Path, (l.filter q).contains x = l.contains x := by
  intro l
  have h2 : x ∈ l.filter q ↔ x ∈ l := by
    rw [List.mem_filter]
    exact ⟨fun a => a.1, fun a => ⟨a, hq⟩⟩
  simp [h2]

theorem uninstall_plugin_ok_shape (w : World) (p : Package) (all : Bool) :
    uninstall_plugin (fun _ => true) w p all
      = (if isDirIn
            (if isFileIn w p.config_path && all then removeFile w p.config_path
             else w) p.path
         then removeDirAll
            (if isFileIn w p.config_path && all then removeFile w p.config_path
             else w) p.path
         else (if isFileIn w p.config_path && all then removeFile w p.config_path
               else w),
         none) := by
  simp only [uninstall_plugin]
  cases h1 : isFileIn w p.config_path && all <;>
    simp only [h1, Bool.false_eq_true, if_false, if_true, ite_true, ite_false] <;>
    cases h2 : isDirIn _ p.path <;>
    simp [h2]

/-! ## Remaining claim theorems -/

/-- C8: for every package uninstalled with all deletions succeeding: the
install directory is removed when it exists; the config file — the name with
`/` replaced by `-` and `.vim` appended unless already present, under the
config directory — is removed exactly when the "also remove config" flag is
set and the file exists, and is left untouched when the flag is not set. -/
theorem uninstall_plugin_removals (w : World) (p : Package) (all : Bool) :
    (uninstall_plugin (fun _ => true) w p all).2 = none
  ∧ (isDirIn w p.path = true →
      isDirIn (uninstall_plugin (fun _ => true) w p all).1 p.path = false)
  ∧ (all = true → isFileIn w p.config_path = true →
      isFileIn (uninstall_plugin (fun _ => true) w p all).1 p.config_path = false)
  ∧ (all = false →
      isFileIn (uninstall_plugin (fun _ => true) w p all).1 p.config_path
        = isFileIn w p.config_path)
  ∧ (isFileIn w p.config_path = false →
      isFileIn (uninstall_plugin (fun _ => true) w p all).1 p.config_path = false)
  ∧ p.config_path = pjoin PACK_CONFIG_DIR
      (if strEndsWith (slashToDash p.name) ".vim" then slashToDash p.name
       else slashToDash p.name ++ ".vim") := by
  refine ⟨?_, ?_, ?_, ?_, ?_, rfl⟩
  · rw [uninstall_plugin_ok_shape]
  · intro h
    rw [uninstall_plugin_ok_shape]
    have hd : isDirIn
        (if isFileIn w p.config_path && all then removeFile w p.config_path
         else w) p.path = true := by
      cases h1 : isFileIn w p.config_path && all <;>
        simp only [h1, Bool.false_eq_true, if_false, if_true, ite_true,
          ite_false] <;> exact h
    simp only [hd, if_true, ite_true]
    exact contains_filter_qfalse _ _ (by simp [isPrefixOf_self]) _
  · intro hall hf
    rw [uninstall_plugin_ok_shape]
    have h1 : (isFileIn w p.config_path && all) = true := by rw [hall, hf]; rfl
    simp only [h1, if_true, ite_true]
    have hgone : isFileIn (removeFile w p.config_path) p.config_path = false :=
      contains_filter_qfalse _ _ (by simp) _
    cases h2 : isDirIn (removeFile w p.config_path) p.path <;>
      simp only [h2, Bool.false_eq_true, if_false, if_true, ite_true, ite_false]
    · exact hgone
    · exact contains_false_filter _ _ _ hgone
  · intro hall
    rw [uninstall_plugin_ok_shape]
    have h1 : (isFileIn w p.config_path && all) = false := by rw [hall]; simp
    simp only [h1, Bool.false_eq_true, if_false, ite_false]
    cases h2 : isDirIn w p.path <;>
      simp only [h2, Bool.false_eq_true, if_false, if_true, ite_true, ite_false]
    exact contains_filter_qtrue _ _ (by simp [path_not_prefix_config]) _
  · intro hf
    rw [uninstall_plugin_ok_shape]
    have h1 : (isFileIn w p.config_path && all) = false := by rw [hf]; simp
    simp only [h1, Bool.false_eq_true, if_false, ite_false]
    cases h2 : isDirIn w p.path <;>
      simp only [h2, Bool.false_eq_true, if_false, if_true, ite_true, ite_false]
    · exact hf
    · exact contains_false_filter _ _ _ hf

/-- C8 witness: uninstalling `a/x` with the flag set removes both the install
directory and the config file `a-x.vim`; without the flag the config file is
retained while the directory is removed. -/
theorem uninstall_plugin_removals_witness :
    (uninstall_plugin (fun _ => true)
        ⟨.absent, none, [[".vim", "pack", "c", "start", "x"]],
          [[".vim", ".pack", "a-x.vim"]]⟩ ⟨"a/x", "c", false, none⟩ true).2 = none
  ∧ isDirIn (uninstall_plugin (fun _ => true)
        ⟨.absent, none, [[".vim", "pack", "c", "start", "x"]],
          [[".vim", ".pack", "a-x.vim"]]⟩ ⟨"a/x", "c", false, none⟩ true).1
        (⟨"a/x", "c", false, none⟩ : Package).path = false
  ∧ isFileIn (uninstall_plugin (fun _ => true)
        ⟨.absent, none, [[".vim", "pack", "c", "start", "x"]],
          [[".vim", ".pack", "a-x.vim"]]⟩ ⟨"a/x", "c", false, none⟩ true).1
        (⟨"a/x", "c", false, none⟩ : Package).config_path = false
  ∧ isFileIn (uninstall_plugin (fun _ => true)
        ⟨.absent, none, [[".vim", "pack", "c", "start", "x"]],
          [[".vim", ".pack", "a-x.vim"]]⟩ ⟨"a/x", "c", false, none⟩ false).1
        (⟨"a/x", "c", false, none⟩ : Package).config_path
      = isFileIn (⟨.absent, none, [[".vim", "pack", "c", "start", "x"]],
          [[".vim", ".pack", "a-x.vim"]]⟩ : World)
        (⟨"a/x", "c", false, none⟩ : Package).config_path :=
  ⟨(uninstall_plugin_removals _ _ _).1,
   (uninstall_plugin_removals _ _ _).2.1 rfl,
   (uninstall_plugin_removals _ _ _).2.2.1 rfl rfl,
   (uninstall_plugin_removals _ _ _).2.2.2.1 rfl⟩

theorem uninstallLoop_append (rmOk : Path → Bool) (all : Bool) (w : World)
    (l1 l2 : List Package) :
    uninstallLoop rmOk all w (l1 ++ l2)
      = (match uninstallLoop rmOk all w l1 with
         | (w1, some e) => (w1, some e)
         | (w1, none) => uninstallLoop rmOk all w1 l2) := by
  induction l1 generalizing w with
  | nil => rfl
  | cons p t ih =>
    simp only [List.cons_append, uninstallLoop]
    cases hp : uninstall_plugin rmOk w p all with
    | mk w' e' =>
      cases e' with
      | some err => rfl
      | none => exact ih w'

/-- C9: a failing per-package filesystem deletion aborts the whole uninstall
command with that error: whenever the requested targets split as
`pre ++ p :: post` with every deletion in `pre` succeeding and `p`'s deletion
failing with error `e`, the command returns exactly that error together with
the world reached right after the failing deletion — so the `post` packages
are never processed — and neither the loader script nor the persisted
declarative store has been rewritten. -/
theorem uninstall_first_failure_aborts (rmOk : Path → Bool) (w : World)
    (packs : List Package) (plugins : List String) (all : Bool)
    (pre post : List Package) (p : Package) (e : Error)
    (hsplit : packs.filter (fun q => plugins.contains q.name)
      = pre ++ p :: post)
    (hpre : (uninstallLoop rmOk all w pre).2 = none)
    (hfail : (uninstall_plugin rmOk (uninstallLoop rmOk all w pre).1 p all).2
      = some e) :
    uninstall_plugins rmOk w packs plugins all
        = ((uninstall_plugin rmOk (uninstallLoop rmOk all w pre).1 p all).1,
           some e)
      ∧ (uninstall_plugins rmOk w packs plugins all).1.store = w.store
      ∧ (uninstall_plugins rmOk w packs plugins all).1.loader = w.loader := by
  have hloop : uninstallLoop rmOk all w
      (packs.filter (fun q => plugins.contains q.name))
      = ((uninstall_plugin rmOk (uninstallLoop rmOk all w pre).1 p all).1,
         some e) := by
    rw [hsplit, uninstallLoop_append]
    cases hl : uninstallLoop rmOk all w pre with
    | mk w1 r1 =>
      rw [hl] at hpre hfail
      cases r1 with
      | some r => exact absurd hpre (by simp)
      | none =>
        dsimp only at hfail ⊢
        simp only [uninstallLoop]
        cases hu : uninstall_plugin rmOk w1 p all with
        | mk w' e' =>
          rw [hu] at hfail
          cases e' with
          | none => exact absurd hfail (by simp)
          | some f =>
            have hf : f = e := Option.some.inj hfail
            subst hf
            rfl
  have hcmd : uninstall_plugins rmOk w packs plugins all
      = ((uninstall_plugin rmOk (uninstallLoop rmOk all w pre).1 p all).1,
         some e) := by
    unfold uninstall_plugins
    rw [hloop]
  refine ⟨hcmd, ?_, ?_⟩
  · rw [hcmd]
    exact (uninstall_plugin_preserves rmOk (uninstallLoop rmOk all w pre).1
      p all).1.trans (uninstallLoop_preserves rmOk all w pre).1
  · rw [hcmd]
    exact (uninstall_plugin_preserves rmOk (uninstallLoop rmOk all w pre).1
      p all).2.trans (uninstallLoop_preserves rmOk all w pre).2

/-- C9 witness: two requested packages where the first one's directory
deletion fails (the removal oracle always fails): uninstall aborts with the
filesystem error, the store and the loader script are exactly as they were,
and the second requested package was never processed — its install directory
is still present. -/
theorem uninstall_first_failure_aborts_witness :
    (uninstall_plugins (fun _ => false)
        ⟨.absent, none, [[".vim", "pack", "c", "start", "x"],
          [".vim", "pack", "c", "start", "y"]], []⟩
        [⟨"a/x", "c", false, none⟩, ⟨"b/y", "c", false, none⟩]
        ["a/x", "b/y"] false).2 = some .Fs
  ∧ (uninstall_plugins (fun _ => false)
        ⟨.absent, none, [[".vim", "pack", "c", "start", "x"],
          [".vim", "pack", "c", "start", "y"]], []⟩
        [⟨"a/x", "c", false, none⟩, ⟨"b/y", "c", false, none⟩]
        ["a/x", "b/y"] false).1.store = StoreState.absent
  ∧ (uninstall_plugins (fun _ => false)
        ⟨.absent, none, [[".vim", "pack", "c", "start", "x"],
          [".vim", "pack", "c", "start", "y"]], []⟩
        [⟨"a/x", "c", false, none⟩, ⟨"b/y", "c", false, none⟩]
        ["a/x", "b/y"] false).1.loader = none
  ∧ isDirIn (uninstall_plugins (fun _ => false)
        ⟨.absent, none, [[".vim", "pack", "c", "start", "x"],
          [".vim", "pack", "c", "start", "y"]], []⟩
        [⟨"a/x", "c", false, none⟩, ⟨"b/y", "c", false, none⟩]
        ["a/x", "b/y"] false).1
      (⟨"b/y", "c", false, none⟩ : Package).path = true := by
  have h := uninstall_first_failure_aborts (fun _ => false)
    ⟨.absent, none, [[".vim", "pack", "c", "start", "x"],
      [".vim", "pack", "c", "start", "y"]], []⟩
    [⟨"a/x", "c", false, none⟩, ⟨"b/y", "c", false, none⟩]
    ["a/x", "b/y"] false [] [⟨"b/y", "c", false, none⟩]
    ⟨"a/x", "c", false, none⟩ .Fs rfl rfl rfl
  refine ⟨?_, h.2.1, h.2.2, ?_⟩
  · rw [h.1]
  · rw [h.1]
    rfl

/-- C10: record-encoding round-trip — for every Package whose name, category
and load-command text are scalars that the YAML scalar parser reads back as
plain strings, decoding the encoded record returns the same Package (same
name, category, opt and load_command). -/
theorem from_yaml_into_yaml_roundtrip (p : Package)
    (hn : Yaml.from_str p.name = .str p.name)
    (hc : Yaml.from_str p.category = .str p.category)
    (hl : ∀ c, p.load_command = some c → Yaml.from_str c = .str c) :
    Package.from_yaml (Package.into_yaml p) = .ok p := by
  obtain ⟨n, cat, o, lc⟩ := p
  cases lc with
  | none =>
    simp only at hn hc
    calc Package.from_yaml (Package.into_yaml ⟨n, cat, o, none⟩)
        = Package.from_yaml (Yaml.hash [(.str "name", Yaml.from_str n),
            (.str "category", Yaml.from_str cat), (.str "opt", .bool o)]) := rfl
      _ = Package.from_yaml (Yaml.hash [(.str "name", .str n),
            (.str "category", .str cat), (.str "opt", .bool o)]) := by rw [hn, hc]
      _ = .ok ⟨n, cat, o, none⟩ := rfl
  | some c =>
    simp only at hn hc
    have hcmd : Yaml.from_str c = .str c := hl c rfl
    calc Package.from_yaml (Package.into_yaml ⟨n, cat, o, some c⟩)
        = Package.from_yaml (Yaml.hash [(.str "name", Yaml.from_str n),
            (.str "category", Yaml.from_str cat), (.str "opt", .bool o),
            (.str "on", Yaml.from_str c)]) := rfl
      _ = Package.from_yaml (Yaml.hash [(.str "name", .str n),
            (.str "category", .str cat), (.str "opt", .bool o),
            (.str "on", .str c)]) := by rw [hn, hc, hcmd]
      _ = .ok ⟨n, cat, o, some c⟩ := rfl

/-- C10 witness: the round-trip at a concrete Package with a load command. -/
theorem from_yaml_into_yaml_roundtrip_witness :
    Package.from_yaml (Package.into_yaml ⟨"user/repo", "default", true, some "Cmd"⟩)
      = .ok ⟨"user/repo", "default", true, some "Cmd"⟩ :=
  from_yaml_into_yaml_roundtrip _ rfl rfl
    (fun _ hc => Option.some.inj hc ▸ rfl)

end Pack
